import Mathlib

/-
  Verification of the tigris document-database server core against its
  natural-language specification.

  This file gives a shallow embedding, in Lean 4, of the parts of the
  implementation that the checked properties talk about:

  * the logical filters (`query/filter/logical.go`),
  * the streaming read runner with resume tokens and transaction-lifetime
    stitching (`server/services/v1/database/query_runner.go`),
  * the insert path and its duplicate-key handling,
  * the update runner (match-all rejection, deep merge, primary-key
    re-keying, timestamp handling),
  * the tenant metadata manager: schema versioning on collection update,
    branch creation and branch deletion (`server/metadata/tenant.go`,
    `server/services/v1/database/errors.go`).

  Go machine integers are modelled as `Nat`/`Int` (no overflow is relevant
  in the embedded fragments: ids and versions are small counters), byte
  strings as `String`/`Nat` keys, fallible Go functions as `Except`.
-/

namespace Tigris

/-! ## Shared error taxonomy

The KV store errors (`store/kv`) and the user-facing API error taxonomy
(`errors` package, spec section 7). Only the constructors the embedded
code paths can raise are modelled. -/

inductive KvErr where
  | duplicateKey
  | transactionMaxDurationReached
deriving DecidableEq, Repr

/-- Message carried by `kv.ErrDuplicateKey` (the `kv` package is outside the
scanned sources; the exact text is kept abstract as a named constant). -/
def dupKeyMessage : String := "duplicate key"

inductive ApiError where
  | alreadyExists (msg : String)
  | invalidArgument (msg : String)
  | notFound (msg : String)
  | aborted (msg : String)
  | internalErr (msg : String)
  | storeErr (e : KvErr)
deriving DecidableEq, Repr

/-! ## JSON documents

A minimal JSON value type for the rows manipulated by the update runner
and matched by filters.  `JFields` is an ordered association list of the
object's fields, as in the Go `map`/raw-JSON representation. -/

mutual
inductive JVal where
  | num (n : Int)
  | str (s : String)
  | boolean (b : Bool)
  | obj (fields : JFields)
deriving DecidableEq, Repr

inductive JFields where
  | nil
  | cons (k : String) (v : JVal) (rest : JFields)
deriving DecidableEq, Repr
end

/-- Field lookup inside a JSON object (first binding wins, as for Go maps
built from JSON there is at most one binding per key). -/
def JFields.lookupF : JFields → String → Option JVal
  | .nil, _ => none
  | .cons k v rest, f => if k = f then some v else rest.lookupF f

/-- Top-level field access on a document; non-objects have no fields. -/
def JVal.lookupField : JVal → String → Option JVal
  | .obj fs, f => fs.lookupF f
  | _, _ => none

/-! ## Filters (`query/filter/logical.go`)

The filter AST: equality selectors plus the logical `$and` / `$or`
combinators.  `AndFilter.Matches` and `OrFilter.Matches` are the loops of
`logical.go`; `NewAndFilter` / `NewOrFilter` are the constructors with
their arity validation. -/

inductive Filter where
  | selector (field : String) (val : JVal)
  | andF (sub : List Filter)
  | orF (sub : List Filter)

mutual
/-- `Filter.Matches` mirrors the `Matches(doc)` methods: a selector matches
iff the document's field equals the literal; `$and` requires every
sub-filter to match, `$or` some sub-filter. -/
def Filter.Matches : Filter → JVal → Bool
  | .selector f v, doc => decide (JVal.lookupField doc f = some v)
  | .andF sub, doc => matchesAll sub doc
  | .orF sub, doc => matchesAny sub doc

/-- The `AndFilter.Matches` loop: `false` as soon as one sub-filter fails. -/
def matchesAll : List Filter → JVal → Bool
  | [], _ => true
  | f :: fs, doc => f.Matches doc && matchesAll fs doc

/-- The `OrFilter.Matches` loop: `true` as soon as one sub-filter matches. -/
def matchesAny : List Filter → JVal → Bool
  | [], _ => false
  | f :: fs, doc => f.Matches doc || matchesAny fs doc
end

/-- `AndFilter` struct of `logical.go`: wraps the sub-filter list. -/
structure AndFilter where
  filter : List Filter

/-- `OrFilter` struct of `logical.go`: wraps the sub-filter list. -/
structure OrFilter where
  filter : List Filter

/-- `NewAndFilter` with the `validate()` check of `logical.go`. -/
def NewAndFilter (filter : List Filter) : Except String AndFilter :=
  if filter.length < 2 then .error "and filter needs minimum 2 filters"
  else .ok ⟨filter⟩

/-- `NewOrFilter` with the `validate()` check of `logical.go`. -/
def NewOrFilter (filter : List Filter) : Except String OrFilter :=
  if filter.length < 2 then .error "or filter needs minimum 2 filters"
  else .ok ⟨filter⟩

def AndFilter.Matches (a : AndFilter) (doc : JVal) : Bool := matchesAll a.filter doc

def OrFilter.Matches (o : OrFilter) (doc : JVal) : Bool := matchesAny o.filter doc

theorem matchesAll_iff (fs : List Filter) (doc : JVal) :
    matchesAll fs doc = true ↔ ∀ f ∈ fs, f.Matches doc = true := by
  induction fs with
  | nil => simp [matchesAll]
  | cons f fs ih => simp [matchesAll, ih]

theorem matchesAny_iff (fs : List Filter) (doc : JVal) :
    matchesAny fs doc = true ↔ ∃ f ∈ fs, f.Matches doc = true := by
  induction fs with
  | nil => simp [matchesAny]
  | cons f fs ih => simp [matchesAny, ih]

/-- C10: constructing an `AndFilter` or an `OrFilter` with fewer than two
sub-filters fails with an error; a successfully constructed logical filter
has at least two sub-filters, and then `AndFilter.Matches doc` holds iff
every sub-filter matches `doc` while `OrFilter.Matches doc` holds iff some
sub-filter matches `doc`. -/
theorem logical_filters_arity_and_semantics :
    (∀ fs : List Filter, fs.length < 2 →
      NewAndFilter fs = .error "and filter needs minimum 2 filters" ∧
      NewOrFilter fs = .error "or filter needs minimum 2 filters") ∧
    (∀ fs a, NewAndFilter fs = .ok a →
      2 ≤ a.filter.length ∧
      ∀ doc, (a.Matches doc = true ↔ ∀ f ∈ a.filter, f.Matches doc = true)) ∧
    (∀ fs o, NewOrFilter fs = .ok o →
      2 ≤ o.filter.length ∧
      ∀ doc, (o.Matches doc = true ↔ ∃ f ∈ o.filter, f.Matches doc = true)) := by
  refine ⟨fun fs h => ?_, fun fs a h => ?_, fun fs o h => ?_⟩
  · constructor <;> simp [NewAndFilter, NewOrFilter, h]
  · rw [NewAndFilter] at h
    split at h
    · exact absurd h (by simp)
    · cases h
      exact ⟨Nat.le_of_not_lt (by assumption), fun doc => matchesAll_iff fs doc⟩
  · rw [NewOrFilter] at h
    split at h
    · exact absurd h (by simp)
    · cases h
      exact ⟨Nat.le_of_not_lt (by assumption), fun doc => matchesAny_iff fs doc⟩

/-- Witness for C10 at concrete inputs: the empty list is rejected, and a
two-selector `$or` filter is accepted with the disjunctive semantics. -/
theorem logical_filters_arity_and_semantics_witness :
    NewAndFilter ([] : List Filter) = .error "and filter needs minimum 2 filters" ∧
    (2 ≤ (OrFilter.mk [.selector "f" (.num 1), .selector "f" (.num 2)]).filter.length) := by
  refine ⟨(logical_filters_arity_and_semantics.1 [] (by decide)).1, ?_⟩
  have h := (logical_filters_arity_and_semantics.2.2
    [.selector "f" (.num 1), .selector "f" (.num 2)]
    (OrFilter.mk [.selector "f" (.num 1), .selector "f" (.num 2)]) rfl).1
  exact h

/-! ## Streaming reads (`StreamingQueryRunner`, `query_runner.go`)

A KV table is a list of `(encoded key, row payload)` pairs; the KV store
returns rows in increasing key order (`keysSorted`).  Keys and payloads
are abstracted to `Nat` (the encoder's order-preserving byte encoding is
outside these claims).  A transaction is modelled with a `fuel : Option
Nat`: after serving `fuel` rows it raises the 5-second
`TransactionMaxDurationReached` error on the next `Next()` call; `none`
means the transaction completes the scan. -/

abbrev KvRow := Nat × Nat

/-- One `ReadResponse` of `StreamingQueryRunner.iterate`: the row data and
the resume token, which the code sets to `row.Key`. -/
structure ReadResp where
  data : Nat
  resumeToken : Nat
deriving DecidableEq, Repr

/-- The `ReadResponse` built for a row in `iterate`: `ResumeToken: row.Key`. -/
def respOf (r : KvRow) : ReadResp := ⟨r.2, r.1⟩

def streamOf (rows : List KvRow) : List ReadResp := rows.map respOf

/-- Result of one run of `iterate` within one transaction: the responses
sent, the final `row.Key` (key of the last row read, `none` if no row was
ever read) and `iterator.Interrupted()`. -/
structure IterOut where
  sent : List ReadResp
  lastKey : Option Nat
  err : Option KvErr
deriving DecidableEq, Repr

/-- The send loop of `StreamingQueryRunner.iterate` fused with the scan
iterator of one transaction.  `rem` is the remaining limit (`none` encodes
`limit == 0`, i.e. unlimited); `fuel` is the number of rows the transaction
can still serve; `last` is the current `row.Key`.  The loop condition
`(limit == 0 || i < limit) && iterator.Next(&row)` checks the limit before
calling `Next`, so a limit-stop never surfaces the transaction error. -/
def iterGo (avail : List KvRow) (rem fuel last : Option Nat) : IterOut :=
  if rem = some 0 then ⟨[], last, none⟩
  else match avail with
    | [] => ⟨[], last, none⟩
    | r :: rest =>
      if fuel = some 0 then ⟨[], last, some .transactionMaxDurationReached⟩
      else
        let out := iterGo rest (rem.map (· - 1)) (fuel.map (· - 1)) (some r.1)
        ⟨⟨r.2, r.1⟩ :: out.sent, out.lastKey, out.err⟩

/-- Modelled from the spec: `ScanIterator(from)` (the reader is outside the
scanned sources) is an "open-ended forward scan from `from` (inclusive) to
end-of-table" (spec 4.6); `none` is the full-table `ScanTable`. -/
def kvScanFrom (table : List KvRow) : Option Nat → List KvRow
  | none => table
  | some f => table.filter fun r => f ≤ r.1

/-- Modelled from the spec: `FilteredRead(inner, filter)` "wraps an iterator
and drops non-matching rows at read time" (spec 4.6).  The predicate
abstracts `WrappedFilter.Matches` on the row payload. -/
def filteredRead (pred : Nat → Bool) (rows : List KvRow) : List KvRow :=
  rows.filter fun r => pred r.2

/-- `StreamingQueryRunner.iterateOnKvStore` on the scan paths: scan from
the offset key if present (else the whole table), wrap in `FilteredRead`,
then run `iterate` with the request limit. -/
def iterateOnKvStore (table : List KvRow) (pred : Nat → Bool) (from? : Option Nat)
    (limit : Nat) (fuel : Option Nat) : IterOut :=
  iterGo (filteredRead pred (kvScanFrom table from?)) (if limit = 0 then none else some limit) fuel none

/-- `StreamingQueryRunner.Run` inside an explicit user transaction: a
single call to `iterateOnKvStore`; any error — including
`TransactionMaxDurationReached` — is returned to the caller as-is. -/
def streamingRun (table : List KvRow) (pred : Nat → Bool) (from? : Option Nat)
    (limit : Nat) (fuel : Option Nat) : List ReadResp × Option KvErr :=
  let r := iterateOnKvStore table pred from? limit fuel
  (r.sent, r.err)

/-- The retry loop of `StreamingQueryRunner.ReadOnly`: run the scan in a
fresh transaction; on `ErrTransactionMaxDurationReached` set
`options.from` to the last emitted key and loop.  The fuel list gives the
capacity of each successive failing transaction; once exhausted the next
transaction completes the scan. -/
def readOnlyLoop (table : List KvRow) (pred : Nat → Bool) (limit : Nat) :
    Option Nat → List Nat → List ReadResp × Option KvErr
  | from?, [] =>
    let r := iterateOnKvStore table pred from? limit none
    (r.sent, r.err)
  | from?, f :: fuels =>
    let r := iterateOnKvStore table pred from? limit (some f)
    if r.err = some .transactionMaxDurationReached then
      let rest := readOnlyLoop table pred limit r.lastKey fuels
      (r.sent ++ rest.1, rest.2)
    else (r.sent, r.err)

/-- The table is stored in strictly increasing encoded-key order (spec 5:
"KV iterator visits rows in lex order of encoded keys"). -/
def keysSorted (table : List KvRow) : Prop := table.Pairwise fun a b => a.1 < b.1

/-- The `row.Key` value after iterating `rows` starting from `last`. -/
def lastKeyAfter (rows : List KvRow) (last : Option Nat) : Option Nat :=
  match rows.getLast? with
  | some r => some r.1
  | none => last

theorem lastKeyAfter_cons (r : KvRow) (rows : List KvRow) (last : Option Nat) :
    lastKeyAfter (r :: rows) last = lastKeyAfter rows (some r.1) := by
  cases rows with
  | nil => rfl
  | cons x xs =>
    unfold lastKeyAfter
    rw [List.getLast?_cons_cons]
    cases e : (x :: xs).getLast? with
    | none => simp at e
    | some y => rfl

theorem iterGo_unlimited (rows : List KvRow) (last : Option Nat) :
    iterGo rows none none last = ⟨streamOf rows, lastKeyAfter rows last, none⟩ := by
  induction rows generalizing last with
  | nil => simp [iterGo, streamOf, lastKeyAfter]
  | cons r rest ih =>
    rw [iterGo]
    simp only [reduceCtorEq, if_false, Option.map_none']
    rw [ih (some r.1)]
    simp [streamOf, respOf, lastKeyAfter_cons]

theorem iterGo_limited (L : Nat) (rows : List KvRow) (last : Option Nat)
    (h : L ≤ rows.length) :
    iterGo rows (some L) none last
      = ⟨streamOf (rows.take L), lastKeyAfter (rows.take L) last, none⟩ := by
  induction L generalizing rows last with
  | zero =>
    rw [iterGo.eq_def]
    simp [streamOf, lastKeyAfter]
  | succ n ih =>
    cases rows with
    | nil => simp at h
    | cons r rest =>
      have h1 : (some (n + 1) = some (0 : Nat)) = False := by simp
      have h2 : ((none : Option Nat) = some (0 : Nat)) = False := by simp
      rw [iterGo]
      simp only [h1, h2, if_false, Option.map_some', Option.map_none', Nat.add_sub_cancel]
      rw [ih rest (some r.1) (by simpa using h)]
      simp [streamOf, respOf, lastKeyAfter_cons]

theorem iterGo_fuel_exhausted (f : Nat) (rows : List KvRow) (last : Option Nat)
    (h : f < rows.length) :
    iterGo rows none (some f) last
      = ⟨streamOf (rows.take f), lastKeyAfter (rows.take f) last,
          some KvErr.transactionMaxDurationReached⟩ := by
  induction f generalizing rows last with
  | zero =>
    cases rows with
    | nil => simp at h
    | cons r rest => simp [iterGo, streamOf, lastKeyAfter]
  | succ n ih =>
    cases rows with
    | nil => simp at h
    | cons r rest =>
      have h1 : (some (n + 1) = some (0 : Nat)) = False := by simp
      have h2 : ((none : Option Nat) = some (0 : Nat)) = False := by simp
      rw [iterGo]
      simp only [h1, h2, if_false, Option.map_some', Option.map_none', Nat.add_sub_cancel]
      rw [ih rest (some r.1) (by simpa using h)]
      simp [streamOf, respOf, lastKeyAfter_cons]

theorem keysSorted_filtered (table : List KvRow) (pred : Nat → Bool)
    (hs : keysSorted table) : keysSorted (filteredRead pred table) :=
  hs.sublist (List.filter_sublist table)

theorem scanFilter_comm (table : List KvRow) (pred : Nat → Bool) (k : Nat) :
    filteredRead pred (kvScanFrom table (some k))
      = (filteredRead pred table).filter fun r => decide (k ≤ r.1) := by
  unfold filteredRead kvScanFrom
  rw [List.filter_filter, List.filter_filter]
  exact List.filter_congr fun x _ => Bool.and_comm _ _

theorem sorted_filter_ge_drop (S : List KvRow) (hs : keysSorted S) (i : Nat)
    (hi : i < S.length) :
    (S.filter fun r => decide ((S.get ⟨i, hi⟩).1 ≤ r.1)) = S.drop i := by
  induction S generalizing i with
  | nil => simp at hi
  | cons a rest ih =>
    rcases List.pairwise_cons.mp hs with ⟨ha, hrest⟩
    cases i with
    | zero =>
      simp only [List.get, List.drop_zero, List.filter_cons]
      rw [if_pos (by simp)]
      congr 1
      exact List.filter_eq_self.mpr fun b hb => by
        simpa using le_of_lt (ha b hb)
    | succ j =>
      have hj : j < rest.length := by simpa using hi
      have hmem : rest.get ⟨j, hj⟩ ∈ rest := List.get_mem rest j hj
      have hlt : a.1 < (rest.get ⟨j, hj⟩).1 := ha _ hmem
      simp only [List.get, List.drop_succ_cons, List.filter_cons]
      rw [if_neg (by simpa using not_le.mpr hlt)]
      exact ih hrest j hj

theorem lastKeyAfter_take (S : List KvRow) (L : Nat) (h0 : 0 < L) (h : L ≤ S.length) :
    lastKeyAfter (S.take L) none = S[L - 1]?.map Prod.fst := by
  have hlen : (S.take L).length = L := by
    rw [List.length_take]
    exact min_eq_left h
  have hidx : L - 1 < L := Nat.sub_lt h0 Nat.one_pos
  unfold lastKeyAfter
  rw [List.getLast?_eq_getElem?, hlen, List.getElem?_take, if_pos hidx,
    List.getElem?_eq_getElem (lt_of_lt_of_le hidx h)]
  rfl

/-- C2: on a read-only streaming read, `ReadOnly` absorbs the KV store's
`TransactionMaxDurationReached`: it starts a new transaction and continues
scanning from the last emitted key (the error is not surfaced — the final
error component is `none` and the stream continues with the table suffix
that starts at the last emitted row's key); on the same failure inside an
explicit user transaction, `StreamingQueryRunner.Run` surfaces the error
as-is with no retry. -/
theorem streaming_read_txn_restart (table : List KvRow) (pred : Nat → Bool) (f : Nat)
    (hs : keysSorted table) (hf : 0 < f)
    (hlt : f < (filteredRead pred table).length) :
    readOnlyLoop table pred 0 none [f]
      = (streamOf ((filteredRead pred table).take f)
          ++ streamOf ((filteredRead pred table).drop (f - 1)), none) ∧
    streamingRun table pred none 0 (some f)
      = (streamOf ((filteredRead pred table).take f),
          some KvErr.transactionMaxDurationReached) := by
  set S := filteredRead pred table with hS
  have hSsorted : keysSorted S := keysSorted_filtered table pred hs
  have hidx : f - 1 < S.length := lt_of_le_of_lt (Nat.sub_le f 1) hlt
  have hfirst : iterateOnKvStore table pred none 0 (some f)
      = ⟨streamOf (S.take f), lastKeyAfter (S.take f) none,
          some KvErr.transactionMaxDurationReached⟩ := by
    unfold iterateOnKvStore
    simp only [kvScanFrom, if_pos rfl, ← hS]
    exact iterGo_fuel_exhausted f S none hlt
  have hlast : lastKeyAfter (S.take f) none = some ((S.get ⟨f - 1, hidx⟩).1) := by
    rw [lastKeyAfter_take S f hf (le_of_lt hlt), List.getElem?_eq_getElem hidx]
    rfl
  have hresume : iterateOnKvStore table pred (some ((S.get ⟨f - 1, hidx⟩).1)) 0 none
      = ⟨streamOf (S.drop (f - 1)), lastKeyAfter (S.drop (f - 1)) none, none⟩ := by
    unfold iterateOnKvStore
    rw [if_pos rfl, scanFilter_comm, ← hS, sorted_filter_ge_drop S hSsorted (f - 1) hidx]
    exact iterGo_unlimited (S.drop (f - 1)) none
  constructor
  · show (let r := iterateOnKvStore table pred none 0 (some f)
      if r.err = some .transactionMaxDurationReached then
        let rest := readOnlyLoop table pred 0 r.lastKey []
        (r.sent ++ rest.1, rest.2)
      else (r.sent, r.err)) = _
    rw [hfirst]
    simp only [if_pos rfl, hlast]
    show (streamOf (S.take f)
        ++ (iterateOnKvStore table pred (some ((S.get ⟨f - 1, hidx⟩).1)) 0 none).sent,
        (iterateOnKvStore table pred (some ((S.get ⟨f - 1, hidx⟩).1)) 0 none).err) = _
    rw [hresume]
  · unfold streamingRun
    rw [hfirst]

/-- Witness for C2 at a concrete table: a three-row table read through a
transaction that expires after two rows; the client stream recovers (rows
continue from the last emitted key) while the explicit-transaction `Run`
surfaces the error. -/
theorem streaming_read_txn_restart_witness :
    readOnlyLoop [(1, 10), (2, 20), (3, 30)] (fun _ => true) 0 none [2]
      = ([⟨10, 1⟩, ⟨20, 2⟩, ⟨20, 2⟩, ⟨30, 3⟩], none) ∧
    streamingRun [(1, 10), (2, 20), (3, 30)] (fun _ => true) none 0 (some 2)
      = ([⟨10, 1⟩, ⟨20, 2⟩], some KvErr.transactionMaxDurationReached) := by
  have h := streaming_read_txn_restart [(1, 10), (2, 20), (3, 30)] (fun _ => true) 2
    (by unfold keysSorted; decide) (by decide) (by decide)
  rcases h with ⟨h1, h2⟩
  refine ⟨?_, ?_⟩
  · rw [h1]; rfl
  · rw [h2]; rfl

/-- C1 as stated fails on the code: on the two-row table `[(1,10),(2,20)]`
with limit `L = 1`, the first read emits the row with key `1` and returns
that key as the resume token; resuming with that token as the request
offset scans from the token key inclusively (spec 4.6), so the token row
is emitted a second time.  The combined stream `[⟨10,1⟩, ⟨10,1⟩]`
duplicates a row and differs from the uninterrupted read. -/
theorem resume_token_duplicates_boundary_row :
    (iterateOnKvStore [(1, 10), (2, 20)] (fun _ => true) none 1 none).sent
        ++ (iterateOnKvStore [(1, 10), (2, 20)] (fun _ => true)
              (iterateOnKvStore [(1, 10), (2, 20)] (fun _ => true) none 1 none).lastKey
              1 none).sent
      = [⟨10, 1⟩, ⟨10, 1⟩] ∧
    (iterateOnKvStore [(1, 10), (2, 20)] (fun _ => true) none 2 none).sent
      = [⟨10, 1⟩, ⟨20, 2⟩] ∧
    ¬ ((iterateOnKvStore [(1, 10), (2, 20)] (fun _ => true) none 1 none).sent
        ++ (iterateOnKvStore [(1, 10), (2, 20)] (fun _ => true)
              (iterateOnKvStore [(1, 10), (2, 20)] (fun _ => true) none 1 none).lastKey
              1 none).sent
      = (iterateOnKvStore [(1, 10), (2, 20)] (fun _ => true) none 2 none).sent) := by
  decide

/-- C1 amended: for a streaming read with limit `L`, the resume token of
each response is the raw encoded key of its row and the token returned by
`iterate` is the key of the last row sent; resuming with that token as the
request offset re-reads from the token row inclusively, so the resumed
stream starts with one duplicated row, and after dropping that first row
the concatenation equals the uninterrupted read. -/
theorem resume_token_overlap_one_row (table : List KvRow) (pred : Nat → Bool) (L : Nat)
    (hs : keysSorted table) (hL : 0 < L)
    (hlen : L + L ≤ (filteredRead pred table).length + 1) :
    (iterateOnKvStore table pred none L none).sent
      = streamOf ((filteredRead pred table).take L) ∧
    (iterateOnKvStore table pred none L none).err = none ∧
    (iterateOnKvStore table pred none L none).lastKey
      = (filteredRead pred table)[L - 1]?.map Prod.fst ∧
    (iterateOnKvStore table pred
        (iterateOnKvStore table pred none L none).lastKey L none).sent
      = streamOf (((filteredRead pred table).drop (L - 1)).take L) ∧
    (iterateOnKvStore table pred none L none).sent
        ++ ((iterateOnKvStore table pred
              (iterateOnKvStore table pred none L none).lastKey L none).sent).tail
      = streamOf ((filteredRead pred table).take (L + L - 1)) := by
  set S := filteredRead pred table with hS
  have hSsorted : keysSorted S := keysSorted_filtered table pred hs
  have hLS : L ≤ S.length := by omega
  have hidx : L - 1 < S.length := by omega
  have hfirst : iterateOnKvStore table pred none L none
      = ⟨streamOf (S.take L), lastKeyAfter (S.take L) none, none⟩ := by
    unfold iterateOnKvStore
    rw [if_neg (Nat.pos_iff_ne_zero.mp hL)]
    simp only [kvScanFrom, ← hS]
    exact iterGo_limited L S none hLS
  have hlast : lastKeyAfter (S.take L) none = S[L - 1]?.map Prod.fst :=
    lastKeyAfter_take S L hL hLS
  have hgetl : S[L - 1]? = some (S.get ⟨L - 1, hidx⟩) := List.getElem?_eq_getElem hidx
  have hdroplen : L ≤ (S.drop (L - 1)).length := by
    rw [List.length_drop]; omega
  have hresume : iterateOnKvStore table pred (some ((S.get ⟨L - 1, hidx⟩).1)) L none
      = ⟨streamOf ((S.drop (L - 1)).take L),
          lastKeyAfter ((S.drop (L - 1)).take L) none, none⟩ := by
    unfold iterateOnKvStore
    rw [if_neg (Nat.pos_iff_ne_zero.mp hL), scanFilter_comm, ← hS,
      sorted_filter_ge_drop S hSsorted (L - 1) hidx]
    exact iterGo_limited L (S.drop (L - 1)) none hdroplen
  have hdropcons : S.drop (L - 1) = S.get ⟨L - 1, hidx⟩ :: S.drop L := by
    have := List.drop_eq_getElem_cons hidx
    rwa [show L - 1 + 1 = L by omega] at this
  refine ⟨by rw [hfirst], by rw [hfirst], by rw [hfirst]; exact hlast, ?_, ?_⟩
  · rw [hfirst]
    show (iterateOnKvStore table pred (lastKeyAfter (S.take L) none) L none).sent = _
    rw [hlast, hgetl]
    show (iterateOnKvStore table pred (some ((S.get ⟨L - 1, hidx⟩).1)) L none).sent = _
    rw [hresume]
  · rw [hfirst]
    show streamOf (S.take L)
        ++ (iterateOnKvStore table pred (lastKeyAfter (S.take L) none) L none).sent.tail = _
    rw [hlast, hgetl]
    show streamOf (S.take L)
        ++ (iterateOnKvStore table pred (some ((S.get ⟨L - 1, hidx⟩).1)) L none).sent.tail = _
    rw [hresume]
    show streamOf (S.take L) ++ ((streamOf ((S.drop (L - 1)).take L)).tail) = _
    rw [hdropcons]
    obtain ⟨m, hm⟩ : ∃ m, L = m + 1 := ⟨L - 1, by omega⟩
    subst hm
    simp only [streamOf, List.take_succ_cons, List.map_cons, List.tail_cons,
      ← List.map_append]
    rw [← List.take_add, show m + 1 + (m + 1) - 1 = m + 1 + m by omega]

/-- Witness for the amended C1 at a concrete table: three rows, limit 2;
the resumed stream re-emits the boundary row and dropping it restores the
uninterrupted sequence. -/
theorem resume_token_overlap_one_row_witness :
    (iterateOnKvStore [(1, 10), (2, 20), (3, 30)] (fun _ => true) none 2 none).sent
      = [⟨10, 1⟩, ⟨20, 2⟩] ∧
    (iterateOnKvStore [(1, 10), (2, 20), (3, 30)] (fun _ => true)
        (iterateOnKvStore [(1, 10), (2, 20), (3, 30)] (fun _ => true) none 2 none).lastKey
        2 none).sent
      = [⟨20, 2⟩, ⟨30, 3⟩] ∧
    (iterateOnKvStore [(1, 10), (2, 20), (3, 30)] (fun _ => true) none 2 none).sent
        ++ ((iterateOnKvStore [(1, 10), (2, 20), (3, 30)] (fun _ => true)
              (iterateOnKvStore [(1, 10), (2, 20), (3, 30)] (fun _ => true) none 2 none).lastKey
              2 none).sent).tail
      = [⟨10, 1⟩, ⟨20, 2⟩, ⟨30, 3⟩] := by
  have h := resume_token_overlap_one_row [(1, 10), (2, 20), (3, 30)] (fun _ => true) 2
    (by unfold keysSorted; decide) (by decide) (by decide)
  rcases h with ⟨h1, _, _, h4, h5⟩
  exact ⟨by rw [h1]; rfl, by rw [h4]; rfl, by rw [h5]; rfl⟩

/-! ## Insert path (`BaseQueryRunner.insertOrReplace`, `InsertQueryRunner.Run`)

The store is an association list `encoded key ↦ row payload` in which the
first binding wins; only the parts of the pipeline the claim is about are
kept concrete: each document arrives with the encoded key produced by
`keyGen.generate` and the validated payload (mutation and schema
validation are assumed to succeed — they cannot produce a KV error). -/

abbrev InsKv := List (Nat × Nat)

structure InsDoc where
  key : Nat
  payload : Nat
  forceInsert : Bool
deriving DecidableEq, Repr

/-- Trace of which KV write API a document went through. -/
inductive WriteOp where
  | insertOp (k : Nat)
  | replaceOp (k : Nat)
deriving DecidableEq, Repr

/-- `tx.Insert`: fails with `DuplicateKey` when the key is already
present, otherwise adds the binding. -/
def txInsert (kv : InsKv) (k v : Nat) : Except KvErr InsKv :=
  if (kv.lookup k).isSome then .error .duplicateKey else .ok ((k, v) :: kv)

/-- `tx.Replace`: unconditional upsert. -/
def txReplace (kv : InsKv) (k v : Nat) : InsKv := (k, v) :: kv

structure IorOut where
  result : Except KvErr (InsKv × List Nat)
  ops : List WriteOp

/-- The document loop of `BaseQueryRunner.insertOrReplace`: for each
document, `tx.Insert` when `insert || keyGen.forceInsert`, else
`tx.Replace`; the first KV error aborts the loop; `allKeys` collects the
per-document response keys. -/
def insertOrReplace (kv : InsKv) (docs : List InsDoc) (insert : Bool) : IorOut :=
  match docs with
  | [] => ⟨.ok (kv, []), []⟩
  | d :: rest =>
    if insert || d.forceInsert then
      match txInsert kv d.key d.payload with
      | .error e => ⟨.error e, [.insertOp d.key]⟩
      | .ok kv1 =>
        let out := insertOrReplace kv1 rest insert
        ⟨out.result.map fun p => (p.1, d.key :: p.2), .insertOp d.key :: out.ops⟩
    else
      let out := insertOrReplace (txReplace kv d.key d.payload) rest insert
      ⟨out.result.map fun p => (p.1, d.key :: p.2), .replaceOp d.key :: out.ops⟩

def InsertedStatus : String := "inserted"

structure InsertResponse where
  status : String
  allKeys : List Nat
deriving DecidableEq, Repr

/-- `InsertQueryRunner.Run` after collection resolution: run
`insertOrReplace` with `insert = true`; `kv.ErrDuplicateKey` is translated
to `AlreadyExists(err.Error())`, any other error is returned as-is, and on
success an `Inserted` response with `allKeys` is returned. -/
def insertRun (kv : InsKv) (docs : List InsDoc) : Except ApiError (InsKv × InsertResponse) :=
  match (insertOrReplace kv docs true).result with
  | .error .duplicateKey => .error (.alreadyExists dupKeyMessage)
  | .error e => .error (.storeErr e)
  | .ok (kv1, keys) => .ok (kv1, ⟨InsertedStatus, keys⟩)

theorem insertOrReplace_true_only_inserts (kv : InsKv) (docs : List InsDoc) :
    ∀ op ∈ (insertOrReplace kv docs true).ops, ∃ k, op = WriteOp.insertOp k := by
  induction docs generalizing kv with
  | nil => simp [insertOrReplace]
  | cons d rest ih =>
    rw [insertOrReplace]
    simp only [Bool.true_or, if_pos]
    cases htx : txInsert kv d.key d.payload with
    | error e => intro op hop; simp at hop; exact ⟨d.key, hop⟩
    | ok kv1 =>
      intro op hop
      simp only [List.mem_cons] at hop
      rcases hop with rfl | hop
      · exact ⟨d.key, rfl⟩
      · exact ih kv1 op hop

theorem insertOrReplace_duplicate_errors (kv : InsKv) (docs : List InsDoc)
    (h : ∃ d ∈ docs, (kv.lookup d.key).isSome) :
    (insertOrReplace kv docs true).result = .error KvErr.duplicateKey := by
  induction docs generalizing kv with
  | nil => simp at h
  | cons d rest ih =>
    rw [insertOrReplace]
    simp only [Bool.true_or, if_pos]
    by_cases hd : (kv.lookup d.key).isSome
    · rw [txInsert, if_pos hd]
    · rw [txInsert, if_neg hd]
      rcases h with ⟨d0, hd0mem, hd0⟩
      rcases List.mem_cons.mp hd0mem with rfl | hd0mem
      · exact absurd hd0 hd
      · have hpres : (((d.key, d.payload) :: kv).lookup d0.key).isSome := by
          rw [List.lookup_cons]
          split
          · rfl
          · exact hd0
        have := ih ((d.key, d.payload) :: kv) ⟨d0, hd0mem, hpres⟩
        simp only [this, Except.map]

/-- C3: when some document's primary key already exists in the collection,
the insert path uses only the KV `Insert` API (never `Replace`), the KV
`DuplicateKey` error is translated to `AlreadyExists`, and no `Inserted`
response is produced (the runner returns the error instead). -/
theorem insert_existing_key_already_exists (kv : InsKv) (docs : List InsDoc)
    (h : ∃ d ∈ docs, (kv.lookup d.key).isSome) :
    (∀ op ∈ (insertOrReplace kv docs true).ops, ∃ k, op = WriteOp.insertOp k) ∧
    insertRun kv docs = .error (.alreadyExists dupKeyMessage) := by
  refine ⟨insertOrReplace_true_only_inserts kv docs, ?_⟩
  rw [insertRun, insertOrReplace_duplicate_errors kv docs h]

/-- Witness for C3: inserting a document whose key `5` is already bound in
the store yields `AlreadyExists` through the KV `Insert` API. -/
theorem insert_existing_key_already_exists_witness :
    (∀ op ∈ (insertOrReplace [(5, 50)] [⟨5, 99, false⟩] true).ops,
        ∃ k, op = WriteOp.insertOp k) ∧
    insertRun [(5, 50)] [⟨5, 99, false⟩] = .error (.alreadyExists dupKeyMessage) :=
  insert_existing_key_already_exists [(5, 50)] [⟨5, 99, false⟩]
    ⟨⟨5, 99, false⟩, by decide, by decide⟩

/-! ## Update runner (`UpdateQueryRunner.Run`)

Rows are JSON documents stored under the encoded tuple of their
primary-key field values.  The deep merge of the update operators and the
primary-key-change detection live in the `update` package, which is
outside the scanned sources, so they are modelled from the spec (4.5):
"Merge is a deep JSON merge that detects whether any primary-key field
changed". -/

/-- Replace the binding of `k` with `v` (append when absent), keeping the
field order of the existing document. -/
def replaceField : JFields → String → JVal → JFields
  | .nil, k, v => .cons k v .nil
  | .cons k0 v0 rest, k, v =>
    if k0 = k then .cons k0 v rest else .cons k0 v0 (replaceField rest k v)

mutual
/-- Modelled from the spec: deep JSON merge — objects merge field-wise and
recursively, any other update value overwrites the existing one. -/
def deepMerge : JVal → JVal → JVal
  | .obj a, .obj b => .obj (mergeInto a b)
  | _, b => b

/-- Merge every update field into the existing field list, left to right:
a field present on both sides is deep-merged, a new field is appended. -/
def mergeInto (ex : JFields) : JFields → JFields
  | .nil => ex
  | .cons k v rest =>
    let newV := match ex.lookupF k with
      | some old => deepMerge old v
      | none => v
    mergeInto (replaceField ex k newV) rest
end

/-- Modelled from the spec: `factory.MergeAndGet` returns the merged
document and whether any primary-key field changed. -/
def mergeAndGet (fields : JVal) (pks : List String) (doc : JVal) : JVal × Bool :=
  let merged := deepMerge doc fields
  (merged, pks.any fun p => merged.lookupField p != doc.lookupField p)

/-- Encoded row key: the tuple of the document's primary-key field values
(`keyGen.generate` over `coll.Indexes.PrimaryKey`). -/
abbrev RowKey := List (Option JVal)

def encodeKeyPk (pks : List String) (doc : JVal) : RowKey := pks.map doc.lookupField

/-- Row payload (`internal.TableData`): `created_at`, optional
`updated_at`, and the raw document. -/
structure TableData where
  createdAt : Nat
  updatedAt : Option Nat
  raw : JVal
deriving DecidableEq, Repr

abbrev DocKv := List (RowKey × TableData)

def kvLookup (kv : DocKv) (k : RowKey) : Option TableData := kv.lookup k

/-- `tx.Delete`: remove the binding at the key. -/
def kvDelete (kv : DocKv) (k : RowKey) : DocKv := kv.filter fun r => !(r.1 == k)

/-- `tx.Replace`: upsert (first binding wins on lookup). -/
def kvUpsert (kv : DocKv) (k : RowKey) (v : TableData) : DocKv := (k, v) :: kv

/-- One iteration of the `UpdateQueryRunner.Run` row loop: merge the update
operators into the row, build the new `TableData` with the row's original
`CreatedAt` and the operation timestamp as `updated_at`
(`internal.NewTableDataWithTS(row.Data.CreatedAt, ts, merged)`); on a
primary-key mutation generate the new key, delete the old key and persist
under the new key, otherwise replace in place under the existing key. -/
def updateStep (kv : DocKv) (pks : List String) (k : RowKey) (td : TableData)
    (fields : JVal) (ts : Nat) : DocKv :=
  let merged := (mergeAndGet fields pks td.raw).1
  let primaryKeyMutation := (mergeAndGet fields pks td.raw).2
  let newData : TableData := ⟨td.createdAt, some ts, merged⟩
  if primaryKeyMutation then
    kvUpsert (kvDelete kv k) (encodeKeyPk pks merged) newData
  else
    kvUpsert kv k newData

/-- The row loop of `UpdateQueryRunner.Run` with its limit condition
`(limit == 0 || modifiedCount < limit)`. -/
def updateLoop (pks : List String) (fields : JVal) (ts limit : Nat) :
    DocKv → List (RowKey × TableData) → Nat → DocKv × Nat
  | kv, [], count => (kv, count)
  | kv, row :: rest, count =>
    if limit = 0 || count < limit then
      updateLoop pks fields ts limit (updateStep kv pks row.1 row.2 fields ts) rest (count + 1)
    else (kv, count)

def UpdatedStatus : String := "updated"

structure UpdateResponse where
  status : String
  updatedAt : Nat
  modifiedCount : Nat
deriving DecidableEq, Repr

/-- An update request: `filter = none` models an empty / `{}` filter, on
which `filter.None(req.Filter)` reports true (the `filter` package's
`None` is outside the scanned sources; spec: "Reject if filter matches
everything unless explicit"). -/
structure UpdReq where
  filter : Option Filter
  fields : JVal
  limit : Nat

/-- The write iterator over the matching rows (`getWriteIterator`: key
lookup or filtered scan — both enumerate exactly the rows the filter
matches). -/
def matchingRows (kv : DocKv) (f : Filter) : List (RowKey × TableData) :=
  kv.filter fun r => f.Matches r.2.raw

/-- `UpdateQueryRunner.Run`: reject a match-all (`None`) filter with
`InvalidArgument` before building any iterator, otherwise run the row
loop.  The store is returned alongside so that the no-modification on
rejection is visible. -/
def updateRun (kv : DocKv) (pks : List String) (req : UpdReq) (ts : Nat) :
    Except ApiError UpdateResponse × DocKv :=
  match req.filter with
  | none => (.error (.invalidArgument "updating all documents is not allowed"), kv)
  | some f =>
    let rows := matchingRows kv f
    let out := updateLoop pks req.fields ts req.limit kv rows 0
    (.ok ⟨UpdatedStatus, ts, out.2⟩, out.1)

theorem kvLookup_delete_self (kv : DocKv) (k : RowKey) :
    kvLookup (kvDelete kv k) k = none := by
  induction kv with
  | nil => rfl
  | cons r rest ih =>
    obtain ⟨rk, rv⟩ := r
    unfold kvDelete kvLookup at *
    rw [List.filter_cons]
    by_cases h : rk = k
    · simp only [h, beq_self_eq_true, Bool.not_true, Bool.false_eq_true, if_false]
      exact ih
    · have hb : (rk == k) = false := beq_eq_false_iff_ne.mpr h
      have hb2 : (k == rk) = false := beq_eq_false_iff_ne.mpr (Ne.symm h)
      simp only [hb, Bool.not_false, if_true, List.lookup_cons, hb2]
      exact ih

theorem kvLookup_delete_sub (kv : DocKv) (k k2 : RowKey) (v : TableData)
    (h : kvLookup (kvDelete kv k) k2 = some v) : kvLookup kv k2 = some v := by
  induction kv with
  | nil => simp [kvDelete, kvLookup] at h
  | cons r rest ih =>
    obtain ⟨rk, rv⟩ := r
    unfold kvDelete kvLookup at *
    rw [List.filter_cons] at h
    by_cases hdrop : rk = k
    · have hne : k2 ≠ k := by
        intro he
        rw [he] at h
        have := kvLookup_delete_self rest k
        unfold kvDelete kvLookup at this
        rw [show (fun r => !(r.1 == k)) = (fun r : RowKey × TableData => !(r.1 == k)) from rfl] at h
        simp only [hdrop, beq_self_eq_true, Bool.not_true, Bool.false_eq_true, if_false] at h
        rw [this] at h
        exact Option.noConfusion h
      simp only [hdrop, beq_self_eq_true, Bool.not_true, Bool.false_eq_true, if_false] at h
      rw [List.lookup_cons]
      have : (k2 == k) = false := beq_eq_false_iff_ne.mpr hne
      rw [hdrop] at *
      simp only [this]
      exact ih h
    · have hb : (rk == k) = false := beq_eq_false_iff_ne.mpr hdrop
      simp only [hb, Bool.not_false, if_true, List.lookup_cons] at h
      rw [List.lookup_cons]
      cases hk2 : (k2 == rk) with
      | true => simpa [hk2] using h
      | false =>
        simp only [hk2] at h
        simpa [hk2] using ih h

/-- Witnessing that a real primary-key change forces a different encoded
key: the key is the tuple of primary-key field values. -/
theorem encodeKey_ne_of_pk_changed (pks : List String) (a b : JVal)
    (h : ∃ p ∈ pks, a.lookupField p ≠ b.lookupField p) :
    encodeKeyPk pks a ≠ encodeKeyPk pks b := by
  intro he
  rcases h with ⟨p, hp, hne⟩
  exact hne (List.map_eq_map_iff.mp he p hp)

/-- C5: for a row processed by the update loop, if the deep merge of the
update operators changes any primary-key field the runner deletes the row
at its old key and writes the merged document under the newly generated
key; otherwise it replaces the row in place under its existing key. -/
theorem update_rekey_on_pk_change (kv : DocKv) (pks : List String) (k : RowKey)
    (td : TableData) (fields : JVal) (ts : Nat)
    (hk : k = encodeKeyPk pks td.raw) :
    ((mergeAndGet fields pks td.raw).2 = true →
      kvLookup (updateStep kv pks k td fields ts) k = none ∧
      kvLookup (updateStep kv pks k td fields ts)
          (encodeKeyPk pks (deepMerge td.raw fields))
        = some ⟨td.createdAt, some ts, deepMerge td.raw fields⟩) ∧
    ((mergeAndGet fields pks td.raw).2 = false →
      updateStep kv pks k td fields ts
        = (k, ⟨td.createdAt, some ts, deepMerge td.raw fields⟩) :: kv) := by
  constructor
  · intro hmut
    have hchanged : ∃ p ∈ pks,
        (deepMerge td.raw fields).lookupField p ≠ td.raw.lookupField p := by
      unfold mergeAndGet at hmut
      simp only [List.any_eq_true] at hmut
      rcases hmut with ⟨p, hp, hbne⟩
      exact ⟨p, hp, bne_iff_ne.mp hbne⟩
    have hne : encodeKeyPk pks (deepMerge td.raw fields) ≠ k := by
      rw [hk]
      exact encodeKey_ne_of_pk_changed pks (deepMerge td.raw fields) td.raw hchanged
    have hstep : updateStep kv pks k td fields ts
        = kvUpsert (kvDelete kv k) (encodeKeyPk pks (deepMerge td.raw fields))
            ⟨td.createdAt, some ts, deepMerge td.raw fields⟩ := by
      unfold updateStep
      simp only [hmut, if_true]
      rfl
    constructor
    · rw [hstep]
      unfold kvUpsert kvLookup
      rw [List.lookup_cons]
      have : (k == encodeKeyPk pks (deepMerge td.raw fields)) = false :=
        beq_eq_false_iff_ne.mpr (Ne.symm hne)
      simp only [this]
      exact kvLookup_delete_self kv k
    · rw [hstep]
      unfold kvUpsert kvLookup
      rw [List.lookup_cons]
      simp
  · intro hmut
    unfold updateStep
    simp only [hmut, Bool.false_eq_true, if_false]
    rfl

/-- Witness for C5 at a concrete row: the update sets the primary-key
field `f` from 1 to 2, so the old key is gone and the merged row is stored
under the new key. -/
theorem update_rekey_on_pk_change_witness :
    kvLookup (updateStep [([some (.num 1)], ⟨3, none, .obj (.cons "f" (.num 1) .nil)⟩)]
        ["f"] [some (.num 1)] ⟨3, none, .obj (.cons "f" (.num 1) .nil)⟩
        (.obj (.cons "f" (.num 2) .nil)) 7) [some (.num 1)] = none ∧
    kvLookup (updateStep [([some (.num 1)], ⟨3, none, .obj (.cons "f" (.num 1) .nil)⟩)]
        ["f"] [some (.num 1)] ⟨3, none, .obj (.cons "f" (.num 1) .nil)⟩
        (.obj (.cons "f" (.num 2) .nil)) 7)
      (encodeKeyPk ["f"] (deepMerge (.obj (.cons "f" (.num 1) .nil))
        (.obj (.cons "f" (.num 2) .nil))))
      = some ⟨3, some 7, deepMerge (.obj (.cons "f" (.num 1) .nil))
          (.obj (.cons "f" (.num 2) .nil))⟩ :=
  (update_rekey_on_pk_change [([some (.num 1)], ⟨3, none, .obj (.cons "f" (.num 1) .nil)⟩)]
    ["f"] [some (.num 1)] ⟨3, none, .obj (.cons "f" (.num 1) .nil)⟩
    (.obj (.cons "f" (.num 2) .nil)) 7 (by decide)).1 (by decide)

/-- C6: every row persisted by the update loop keeps the original row's
`created_at` and carries the update operation's timestamp as
`updated_at`: the write of `updateStep` stores exactly
`⟨td.createdAt, some ts, merged⟩`, and any binding of the post-state that
was not already in the store has `created_at` equal to the original row's
and `updated_at` equal to the operation timestamp. -/
theorem update_timestamps_frame (kv : DocKv) (pks : List String) (k : RowKey)
    (td : TableData) (fields : JVal) (ts : Nat) :
    (∃ k2 v, kvLookup (updateStep kv pks k td fields ts) k2 = some v ∧
      v.createdAt = td.createdAt ∧ v.updatedAt = some ts ∧
      v.raw = deepMerge td.raw fields) ∧
    (∀ k2 v, kvLookup (updateStep kv pks k td fields ts) k2 = some v →
      kvLookup kv k2 = some v ∨
        (v.createdAt = td.createdAt ∧ v.updatedAt = some ts)) := by
  have hsplit : updateStep kv pks k td fields ts
      = kvUpsert (kvDelete kv k) (encodeKeyPk pks (deepMerge td.raw fields))
          ⟨td.createdAt, some ts, deepMerge td.raw fields⟩ ∨
      updateStep kv pks k td fields ts
      = kvUpsert kv k ⟨td.createdAt, some ts, deepMerge td.raw fields⟩ := by
    unfold updateStep
    cases hmut : (mergeAndGet fields pks td.raw).2 with
    | true => left; simp only [if_true]; rfl
    | false => right; simp only [Bool.false_eq_true, if_false]; rfl
  constructor
  · rcases hsplit with hstep | hstep
    · refine ⟨encodeKeyPk pks (deepMerge td.raw fields),
        ⟨td.createdAt, some ts, deepMerge td.raw fields⟩, ?_, rfl, rfl, rfl⟩
      rw [hstep]
      unfold kvUpsert kvLookup
      rw [List.lookup_cons]
      simp
    · refine ⟨k, ⟨td.createdAt, some ts, deepMerge td.raw fields⟩, ?_, rfl, rfl, rfl⟩
      rw [hstep]
      unfold kvUpsert kvLookup
      rw [List.lookup_cons]
      simp
  · intro k2 v hv
    rcases hsplit with hstep | hstep <;> rw [hstep] at hv
    · unfold kvUpsert kvLookup at hv
      rw [List.lookup_cons] at hv
      cases hk2 : (k2 == encodeKeyPk pks (deepMerge td.raw fields)) with
      | true =>
        simp only [hk2] at hv
        right
        cases hv
        exact ⟨rfl, rfl⟩
      | false =>
        simp only [hk2] at hv
        exact Or.inl (kvLookup_delete_sub kv k k2 v hv)
    · unfold kvUpsert kvLookup at hv
      rw [List.lookup_cons] at hv
      cases hk2 : (k2 == k) with
      | true =>
        simp only [hk2] at hv
        right
        cases hv
        exact ⟨rfl, rfl⟩
      | false =>
        simp only [hk2] at hv
        exact Or.inl hv

/-- Witness for C6 at a concrete row: the persisted row keeps
`created_at = 3` and gets `updated_at = 7`. -/
theorem update_timestamps_frame_witness :
    kvLookup [([some (JVal.num 1)],
        (⟨3, none, .obj (.cons "f" (.num 1) .nil)⟩ : TableData))]
      [some (JVal.num 1)]
      = some ⟨3, some 7, .obj (.cons "f" (.num 1) (.cons "g" (.num 9) .nil))⟩ ∨
    ((⟨3, some 7, JVal.obj (.cons "f" (.num 1) (.cons "g" (.num 9) .nil))⟩ :
        TableData).createdAt = 3 ∧
      (⟨3, some 7, JVal.obj (.cons "f" (.num 1) (.cons "g" (.num 9) .nil))⟩ :
        TableData).updatedAt = some 7) :=
  (update_timestamps_frame
    [([some (.num 1)], ⟨3, none, .obj (.cons "f" (.num 1) .nil)⟩)]
    ["f"] [some (.num 1)] ⟨3, none, .obj (.cons "f" (.num 1) .nil)⟩
    (.obj (.cons "g" (.num 9) .nil)) 7).2
    [some (.num 1)]
    ⟨3, some 7, .obj (.cons "f" (.num 1) (.cons "g" (.num 9) .nil))⟩
    (by decide)

/-- C4: an Update whose filter is match-all (`filter.None`) is rejected
with `InvalidArgument("updating all documents is not allowed")` and the
store is left untouched; an explicitly spelled-out filter that happens to
match every document is the override that still permits a match-all
update (here a two-branch `$or` covering the whole store updates every
row). -/
theorem update_match_all_rejected :
    (∀ (kv : DocKv) (pks : List String) (fields : JVal) (limit ts : Nat),
      updateRun kv pks ⟨none, fields, limit⟩ ts
        = (.error (.invalidArgument "updating all documents is not allowed"), kv)) ∧
    (∃ (f : Filter) (kv : DocKv) (pks : List String) (fields : JVal) (ts : Nat),
      kv ≠ [] ∧
      (∀ r ∈ kv, f.Matches r.2.raw = true) ∧
      (updateRun kv pks ⟨some f, fields, 0⟩ ts).1
        = .ok ⟨UpdatedStatus, ts, kv.length⟩) := by
  constructor
  · intro kv pks fields limit ts
    rfl
  · refine ⟨.orF [.selector "f" (.num 1), .selector "f" (.num 2)],
      [([some (.num 1)], ⟨0, none, .obj (.cons "f" (.num 1) (.cons "g" (.num 5) .nil))⟩),
       ([some (.num 2)], ⟨0, none, .obj (.cons "f" (.num 2) .nil)⟩)],
      ["f"], .obj (.cons "g" (.num 9) .nil), 7, ?_, ?_, ?_⟩
    · decide
    · decide
    · rfl

/-- Witness for C4: a concrete match-all update request is rejected with
the exact `InvalidArgument` error and an unchanged store. -/
theorem update_match_all_rejected_witness :
    updateRun [([some (.num 1)], ⟨0, none, .obj (.cons "f" (.num 1) .nil)⟩)]
        ["f"] ⟨none, .obj (.cons "g" (.num 9) .nil), 0⟩ 7
      = (.error (.invalidArgument "updating all documents is not allowed"),
         [([some (.num 1)], ⟨0, none, .obj (.cons "f" (.num 1) .nil)⟩)]) :=
  update_match_all_rejected.1
    [([some (.num 1)], ⟨0, none, .obj (.cons "f" (.num 1) .nil)⟩)]
    ["f"] (.obj (.cons "g" (.num 9) .nil)) 0 7

/-! ## Tenant metadata manager (`server/metadata/tenant.go`)

The model keeps the persisted stores the DDL operations write through a
transaction — the dictionary encoding of database and collection names
(spec 4.2), the versioned schema store (spec 4.3, semantics pinned by
`schema_test.go`) — plus the in-memory projects view and, untouched by any
DDL, the user row data.  Dictionary ids come from one monotonic counter
(`nextId`); ids in use are always below it. -/

inductive MetaErrCode where
  | cannotDeleteBranch
  | branchNotFound
  | projectNotFound
  | databaseBranchExists
  | databaseNotFound
  | databaseExists
deriving DecidableEq, Repr

structure MetadataError where
  code : MetaErrCode
  msg : String
deriving DecidableEq, Repr

def NewMetadataError (code : MetaErrCode) (msg : String) : MetadataError := ⟨code, msg⟩

inductive TenantErr where
  | meta (e : MetadataError)
  | duplicateKey
  | invalidArgument (msg : String)
  | schemaIncompatible
deriving DecidableEq, Repr

/-- Result of `createApiError` (`services/v1/database/errors.go`): metadata
errors are translated into the user-facing taxonomy, any other error is
returned as-is. -/
inductive ApiOrRaw where
  | api (a : ApiError)
  | raw (e : TenantErr)
deriving DecidableEq, Repr

/-- `createApiError` of `server/services/v1/database/errors.go`. -/
def createApiError : TenantErr → ApiOrRaw
  | .meta e =>
    match e.code with
    | .databaseNotFound => .api (.notFound e.msg)
    | .branchNotFound => .api (.notFound e.msg)
    | .databaseBranchExists => .api (.alreadyExists e.msg)
    | .databaseExists => .api (.alreadyExists e.msg)
    | .cannotDeleteBranch => .api (.invalidArgument e.msg)
    | .projectNotFound => .api (.notFound e.msg)
  | e => .raw e

structure SchemaKey where
  ns : Nat
  db : Nat
  coll : Nat
  ver : Nat
deriving DecidableEq, Repr

abbrev SchemaStore := List (SchemaKey × String)

def baseSchemaVersion : Nat := 1

/-- `SchemaSubspace.Put` — semantics modelled from spec 4.3 and pinned by
`server/metadata/schema_test.go` (the implementation is outside the
scanned sources): versions start at 1 (`0` is invalid), the schema must be
non-empty, and re-putting an existing `(collection, version)` yields
`DuplicateKey`. -/
def schemaPut (s : SchemaStore) (ns db coll : Nat) (sch : String) (ver : Nat) :
    Except TenantErr SchemaStore :=
  if ver = 0 then .error (.invalidArgument "invalid schema version")
  else if sch = "" then .error (.invalidArgument "empty schema")
  else if (s.lookup ⟨ns, db, coll, ver⟩).isSome then .error .duplicateKey
  else .ok ((⟨ns, db, coll, ver⟩, sch) :: s)

structure Collection where
  id : Nat
  name : String
  schema : String
  version : Nat
deriving DecidableEq, Repr

structure Database where
  id : Nat
  name : String
  collections : List (String × Collection)
deriving DecidableEq, Repr

/-- `Database.ListCollection`. -/
def Database.ListCollection (d : Database) : List Collection :=
  d.collections.map Prod.snd

def mainBranch : String := "main"

/-- Modelled from the spec: a `DbName` "splits into `(base, branch)`;
`branch == "main"` is the main branch" (spec 3; the `DatabaseName` helpers
are outside the scanned sources).  An empty branch in a request defaults
to `"main"` (spec 6). -/
structure DatabaseName where
  base : String
  branch : String
deriving DecidableEq, Repr

def NewDatabaseNameWithBranch (base branchName : String) : DatabaseName :=
  ⟨base, if branchName = "" then mainBranch else branchName⟩

def DatabaseName.IsMainBranch (d : DatabaseName) : Bool := d.branch == mainBranch

/-- Internal database name: the base for the main branch, a composite for
other branches. -/
def DatabaseName.Name (d : DatabaseName) : String :=
  if d.IsMainBranch then d.base else d.base ++ "_$branch$_" ++ d.branch

def DatabaseName.Branch (d : DatabaseName) : String := d.branch

structure Project where
  name : String
  database : Database
  databaseBranches : List (String × Database)
deriving DecidableEq, Repr

/-- `schema.Factory` as far as branch cloning needs it. -/
structure SchemaFactory where
  name : String
  schema : String
deriving DecidableEq, Repr

/-- Modelled from the spec: `schema.Build(coll.Name, coll.Schema)` parses
the stored schema bytes back into a factory (the `schema` package is
outside the scanned sources); stored collection schemas are well formed,
so the build returns the factory carrying that name and schema. -/
def schemaBuild (name : String) (sch : String) : SchemaFactory := ⟨name, sch⟩

structure Tenant where
  nsId : Nat
  projects : List (String × Project)
  nextId : Nat
  dictDatabases : List (String × Nat)
  dictCollections : List ((Nat × String) × Nat)
  schemas : SchemaStore
  rowData : List (Nat × Nat × Nat)
deriving DecidableEq, Repr

/-- `Tenant.updateCollection`: (new-index bookkeeping elided) validate the
new schema against the compatibility rules — `schema.ApplySchemaRules`,
outside the scanned sources, abstracted as the `rules` parameter — then
persist the new schema under `schRevision = previous collection version +
1` and replace the in-memory collection with one carrying `schRevision`. -/
def Tenant.updateCollection (t : Tenant) (rules : Collection → SchemaFactory → Bool)
    (db : Database) (c : Collection) (f : SchemaFactory) :
    Except TenantErr (Tenant × Database) :=
  if rules c f then
    let schRevision := c.version + 1
    match schemaPut t.schemas t.nsId db.id c.id f.schema schRevision with
    | .error e => .error e
    | .ok s2 =>
      .ok ({ t with schemas := s2 },
           { db with collections :=
              (f.name, ⟨c.id, f.name, f.schema, schRevision⟩) :: db.collections })
  else .error .schemaIncompatible

/-- `Tenant.createCollection`: when the name exists with an equal schema
return early, with a different schema run `updateCollection`; otherwise
allocate the collection id in the dictionary (a duplicate active name
yields `DuplicateKey`, spec 4.2), persist the schema at
`baseSchemaVersion` and add the collection to the (staged) database
object.  Secondary-index ids and config-gated search-store writes are
elided — they touch neither the schema store nor the claims. -/
def Tenant.createCollection (t : Tenant) (rules : Collection → SchemaFactory → Bool)
    (db : Database) (f : SchemaFactory) : Except TenantErr (Tenant × Database) :=
  match db.collections.lookup f.name with
  | some c =>
    if c.schema == f.schema then .ok (t, db)
    else t.updateCollection rules db c f
  | none =>
    if (t.dictCollections.lookup (db.id, f.name)).isSome then .error .duplicateKey
    else
      let collId := t.nextId
      match schemaPut t.schemas t.nsId db.id collId f.schema baseSchemaVersion with
      | .error e => .error e
      | .ok s2 =>
        .ok ({ t with nextId := t.nextId + 1,
                      dictCollections := ((db.id, f.name), collId) :: t.dictCollections,
                      schemas := s2 },
             { db with collections :=
                (f.name, ⟨collId, f.name, f.schema, baseSchemaVersion⟩) :: db.collections })

/-- The collection-cloning loop of `Tenant.CreateBranch`: for every
collection of the main database, rebuild its factory from the stored
schema and create it inside the branch database object. -/
def createBranchCollections (rules : Collection → SchemaFactory → Bool) :
    Tenant → Database → List Collection → Except TenantErr (Tenant × Database)
  | t, branch, [] => .ok (t, branch)
  | t, branch, c :: rest =>
    match t.createCollection rules branch (schemaBuild c.name c.schema) with
    | .error e => .error e
    | .ok (t2, branch2) => createBranchCollections rules t2 branch2 rest

def projectNotFoundMsg (p : String) : String := "project doesn't exist, project: " ++ p

def branchExistsMsg (b : String) : String := "branch already exist, branch: " ++ b

def branchNotFoundMsg (b : String) : String := "branch doesn't exist, branch: " ++ b

/-- `Tenant.CreateBranch`: look up the project, refuse an existing branch
name, create the branch database in the dictionary (allocating a fresh
id), then clone every collection of the main database into the branch
from its stored schema.  The in-memory branch object is discarded — the
cache is rebuilt on reload — and no user row data is touched. -/
def Tenant.CreateBranch (t : Tenant) (rules : Collection → SchemaFactory → Bool)
    (projName : String) (dbName : DatabaseName) : Except TenantErr Tenant :=
  match t.projects.lookup projName with
  | none => .error (.meta (NewMetadataError .projectNotFound (projectNotFoundMsg projName)))
  | some proj =>
    if (proj.databaseBranches.lookup dbName.Name).isSome then
      .error (.meta (NewMetadataError .databaseBranchExists (branchExistsMsg dbName.Branch)))
    else if (t.dictDatabases.lookup dbName.Name).isSome then .error .duplicateKey
    else
      let branchId := t.nextId
      let t1 := { t with nextId := t.nextId + 1,
                         dictDatabases := (dbName.Name, branchId) :: t.dictDatabases }
      match createBranchCollections rules t1 ⟨branchId, dbName.Name, []⟩
          proj.database.ListCollection with
      | .error e => .error e
      | .ok (t2, _) => .ok t2

/-- The inner `deleteBranch`: drop the branch's dictionary record, its
collections and their schemas from the persisted stores. -/
def Tenant.deleteBranch (t : Tenant) (proj : Project) (dbBranch : DatabaseName) :
    Except TenantErr Tenant :=
  match proj.databaseBranches.lookup dbBranch.Name with
  | none => .error (.meta (NewMetadataError .branchNotFound (branchNotFoundMsg dbBranch.Name)))
  | some branch =>
    .ok { t with
      dictDatabases := t.dictDatabases.filter fun p => !(p.1 == dbBranch.Name),
      dictCollections := t.dictCollections.filter fun p => !(p.1.1 == branch.id),
      schemas := t.schemas.filter fun p => !(p.1.db == branch.id) }

/-- `Tenant.DeleteBranch`: the `main` branch is refused before anything is
looked up or touched. -/
def Tenant.DeleteBranch (t : Tenant) (projName : String) (dbBranch : DatabaseName) :
    Except TenantErr Tenant :=
  if dbBranch.IsMainBranch then
    .error (.meta (NewMetadataError .cannotDeleteBranch "'main' database cannot be deleted."))
  else
    match t.projects.lookup projName with
    | none => .error (.meta (NewMetadataError .projectNotFound (projectNotFoundMsg projName)))
    | some proj => t.deleteBranch proj dbBranch

theorem lookup_eq_none_of_ne {α β : Type} [BEq α] [LawfulBEq α]
    (l : List (α × β)) (key : α) (h : ∀ p ∈ l, p.1 ≠ key) : l.lookup key = none := by
  induction l with
  | nil => rfl
  | cons p rest ih =>
    obtain ⟨a, b⟩ := p
    rw [List.lookup_cons]
    have hne : (key == a) = false := beq_eq_false_iff_ne.mpr (Ne.symm (h (a, b) (by simp)))
    simp only [hne]
    exact ih fun q hq => h q (List.mem_cons_of_mem _ hq)

/-- C8: `DeleteBranch` on the `main` branch of any project fails with the
metadata error `ErrCodeCannotDeleteBranch` and message `"'main' database
cannot be deleted."`, which `createApiError` translates to
`InvalidArgument`; the error return means no branch is deleted. -/
theorem delete_branch_main_rejected (t : Tenant) (projName : String)
    (dbBranch : DatabaseName) (h : dbBranch.IsMainBranch = true) :
    t.DeleteBranch projName dbBranch
      = .error (.meta (NewMetadataError .cannotDeleteBranch
          "'main' database cannot be deleted.")) ∧
    createApiError (.meta (NewMetadataError .cannotDeleteBranch
        "'main' database cannot be deleted."))
      = .api (.invalidArgument "'main' database cannot be deleted.") ∧
    ∀ t2, t.DeleteBranch projName dbBranch ≠ .ok t2 := by
  have he : t.DeleteBranch projName dbBranch
      = .error (.meta (NewMetadataError .cannotDeleteBranch
          "'main' database cannot be deleted.")) := by
    unfold Tenant.DeleteBranch
    simp [h]
  exact ⟨he, rfl, fun t2 hc => by rw [he] at hc; exact Except.noConfusion hc⟩

/-- Witness for C8: deleting branch `main` of project `p1` on a concrete
tenant is refused and mapped to `InvalidArgument`. -/
theorem delete_branch_main_rejected_witness :
    Tenant.DeleteBranch ⟨1, [], 5, [], [], [], []⟩ "p1"
        (NewDatabaseNameWithBranch "p1" "main")
      = .error (.meta (NewMetadataError .cannotDeleteBranch
          "'main' database cannot be deleted.")) ∧
    createApiError (.meta (NewMetadataError .cannotDeleteBranch
        "'main' database cannot be deleted."))
      = .api (.invalidArgument "'main' database cannot be deleted.") :=
  have h := delete_branch_main_rejected ⟨1, [], 5, [], [], [], []⟩ "p1"
    (NewDatabaseNameWithBranch "p1" "main") (by decide)
  ⟨h.1, h.2.1⟩

/-- C7: a successful `updateCollection` persists the new schema in the
schema store under `version = previous collection version + 1` and the
refreshed in-memory collection carries that version, which is strictly
greater than the previous one — schema versions strictly increase across
successful schema updates. -/
theorem update_collection_version_increment (t : Tenant)
    (rules : Collection → SchemaFactory → Bool) (db : Database) (c : Collection)
    (f : SchemaFactory) (t2 : Tenant) (db2 : Database)
    (h : t.updateCollection rules db c f = .ok (t2, db2)) :
    db2.collections.lookup f.name = some ⟨c.id, f.name, f.schema, c.version + 1⟩ ∧
    t2.schemas.lookup ⟨t.nsId, db.id, c.id, c.version + 1⟩ = some f.schema ∧
    c.version < c.version + 1 := by
  unfold Tenant.updateCollection at h
  by_cases hr : rules c f
  · rw [if_pos hr] at h
    simp only [] at h
    cases hsp : schemaPut t.schemas t.nsId db.id c.id f.schema (c.version + 1) with
    | error e =>
      rw [hsp] at h
      exact Except.noConfusion h
    | ok s2 =>
      rw [hsp] at h
      simp only [Except.ok.injEq, Prod.mk.injEq] at h
      obtain ⟨ht, hdb⟩ := h
      subst ht
      subst hdb
      refine ⟨by rw [List.lookup_cons]; simp, ?_, Nat.lt_succ_self _⟩
      unfold schemaPut at hsp
      rw [if_neg (by simp)] at hsp
      by_cases hemp : f.schema = ""
      · rw [if_pos hemp] at hsp
        exact Except.noConfusion hsp
      · rw [if_neg hemp] at hsp
        by_cases hdup : (t.schemas.lookup ⟨t.nsId, db.id, c.id, c.version + 1⟩).isSome
        · rw [if_pos hdup] at hsp
          exact Except.noConfusion hsp
        · rw [if_neg hdup] at hsp
          simp only [Except.ok.injEq] at hsp
          rw [← hsp, List.lookup_cons]
          simp
  · rw [if_neg hr] at h
    exact Except.noConfusion h

/-- Witness for C7: updating collection `c` (id 3, version 1) of database
2 with a new schema `s2` persists `(ns 1, db 2, coll 3, version 2) ↦ s2`
and the collection version becomes 2. -/
theorem update_collection_version_increment_witness :
    (Database.mk 2 "db"
        [("c", ⟨3, "c", "s2", 2⟩), ("c", ⟨3, "c", "s1", 1⟩)]).collections.lookup "c"
      = some ⟨3, "c", "s2", 2⟩ ∧
    (Tenant.mk 1 [] 10 [] [] [(⟨1, 2, 3, 2⟩, "s2"), (⟨1, 2, 3, 1⟩, "s1")] []).schemas.lookup
        ⟨1, 2, 3, 2⟩ = some "s2" ∧
    (1 : Nat) < 1 + 1 :=
  update_collection_version_increment
    ⟨1, [], 10, [], [], [(⟨1, 2, 3, 1⟩, "s1")], []⟩ (fun _ _ => true)
    ⟨2, "db", [("c", ⟨3, "c", "s1", 1⟩)]⟩ ⟨3, "c", "s1", 1⟩ ⟨"c", "s2"⟩
    ⟨1, [], 10, [], [], [(⟨1, 2, 3, 2⟩, "s2"), (⟨1, 2, 3, 1⟩, "s1")], []⟩
    ⟨2, "db", [("c", ⟨3, "c", "s2", 2⟩), ("c", ⟨3, "c", "s1", 1⟩)]⟩
    rfl

theorem createBranchCollections_ok (rules : Collection → SchemaFactory → Bool) (B : Nat)
    (cols : List Collection) :
    ∀ (t : Tenant) (branch : Database),
    branch.id = B →
    B < t.nextId →
    (cols.map Collection.name).Nodup →
    (∀ c ∈ cols, branch.collections.lookup c.name = none) →
    (∀ p ∈ t.dictCollections, p.1.1 = B → ∀ c ∈ cols, p.1.2 ≠ c.name) →
    (∀ p ∈ t.schemas, p.1.db = B → p.1.coll < t.nextId) →
    (∀ c ∈ cols, c.schema ≠ "") →
    ∃ t2 branch2,
      createBranchCollections rules t branch cols = .ok (t2, branch2) ∧
      t2.nsId = t.nsId ∧ t2.rowData = t.rowData ∧
      t2.dictDatabases = t.dictDatabases ∧ t2.projects = t.projects ∧
      t.nextId ≤ t2.nextId ∧
      (∀ q : Nat × String, (∀ c ∈ cols, q ≠ (B, c.name)) →
        t2.dictCollections.lookup q = t.dictCollections.lookup q) ∧
      (∀ sk : SchemaKey, (sk.db = B → sk.coll < t.nextId) →
        t2.schemas.lookup sk = t.schemas.lookup sk) ∧
      (∀ c ∈ cols, ∃ cid, t.nextId ≤ cid ∧ cid < t2.nextId ∧
        t2.dictCollections.lookup (B, c.name) = some cid ∧
        t2.schemas.lookup ⟨t.nsId, B, cid, baseSchemaVersion⟩ = some c.schema) := by
  induction cols with
  | nil =>
    intro t branch _ _ _ _ _ _ _
    exact ⟨t, branch, rfl, rfl, rfl, rfl, rfl, Nat.le_refl _, fun q _ => rfl,
      fun sk _ => rfl, fun c hc => absurd hc (List.not_mem_nil c)⟩
  | cons c rest ih =>
    intro t branch hb hB hnodup hfresh hdict hschema hne
    subst hb
    have hcmem : c ∈ c :: rest := List.mem_cons_self c rest
    have hnotin : c.name ∉ rest.map Collection.name := (List.nodup_cons.mp hnodup).1
    have hnodup2 : (rest.map Collection.name).Nodup := (List.nodup_cons.mp hnodup).2
    have hfreshc : branch.collections.lookup c.name = none := hfresh c hcmem
    have hdictnone : t.dictCollections.lookup (branch.id, c.name) = none := by
      apply lookup_eq_none_of_ne
      intro p hp hpk
      by_cases hpB : p.1.1 = branch.id
      · exact hdict p hp hpB c hcmem (by rw [hpk])
      · exact hpB (by rw [hpk])
    have hschemanone : t.schemas.lookup
        ⟨t.nsId, branch.id, t.nextId, baseSchemaVersion⟩ = none := by
      apply lookup_eq_none_of_ne
      intro p hp hpk
      have h1 : p.1.db = branch.id := by rw [hpk]
      have h2 : p.1.coll = t.nextId := by rw [hpk]
      have h3 := hschema p hp h1
      rw [h2] at h3
      exact absurd h3 (lt_irrefl _)
    set t1 : Tenant :=
      { t with nextId := t.nextId + 1,
               dictCollections := ((branch.id, c.name), t.nextId) :: t.dictCollections,
               schemas := (⟨t.nsId, branch.id, t.nextId, baseSchemaVersion⟩, c.schema)
                 :: t.schemas } with ht1
    set branch1 : Database :=
      { branch with collections :=
          (c.name, ⟨t.nextId, c.name, c.schema, baseSchemaVersion⟩)
            :: branch.collections } with hbranch1
    have hcc : t.createCollection rules branch (schemaBuild c.name c.schema)
        = .ok (t1, branch1) := by
      rw [ht1, hbranch1]
      have hb0 : ¬ (baseSchemaVersion = 0) := by decide
      simp only [Tenant.createCollection, schemaBuild, hfreshc, hdictnone, schemaPut,
        Option.isSome_none, Bool.false_eq_true, if_false, if_neg hb0,
        if_neg (hne c hcmem), hschemanone]
    have hfresh1 : ∀ c2 ∈ rest, branch1.collections.lookup c2.name = none := by
      intro c2 hc2
      rw [hbranch1]
      show List.lookup c2.name ((c.name, _) :: branch.collections) = none
      rw [List.lookup_cons]
      have hnm : c2.name ≠ c.name := by
        intro hcontra
        exact hnotin (hcontra ▸ List.mem_map_of_mem Collection.name hc2)
      have : (c2.name == c.name) = false := beq_eq_false_iff_ne.mpr hnm
      simp only [this]
      exact hfresh c2 (List.mem_cons_of_mem c hc2)
    have hdict1 : ∀ p ∈ t1.dictCollections, p.1.1 = branch.id →
        ∀ c2 ∈ rest, p.1.2 ≠ c2.name := by
      intro p hp hpB c2 hc2
      rw [ht1] at hp
      rcases List.mem_cons.mp hp with rfl | hp
      · show c.name ≠ c2.name
        intro hcontra
        exact hnotin (hcontra ▸ List.mem_map_of_mem Collection.name hc2)
      · exact hdict p hp hpB c2 (List.mem_cons_of_mem c hc2)
    have hschema1 : ∀ p ∈ t1.schemas, p.1.db = branch.id → p.1.coll < t1.nextId := by
      intro p hp hpB
      rw [ht1] at hp
      rcases List.mem_cons.mp hp with rfl | hp
      · exact Nat.lt_succ_self _
      · exact Nat.lt_succ_of_lt (hschema p hp hpB)
    obtain ⟨t2, branch2, heq, hns, hrow, hdictdb, hproj, hle, hkeepD, hkeepS, hcols⟩ :=
      ih t1 branch1 rfl (Nat.lt_succ_of_lt hB) hnodup2 hfresh1 hdict1 hschema1
        (fun c2 hc2 => hne c2 (List.mem_cons_of_mem c hc2))
    refine ⟨t2, branch2, ?_, hns, hrow, hdictdb, hproj,
      Nat.le_trans (Nat.le_succ _) hle, ?_, ?_, ?_⟩
    · unfold createBranchCollections
      rw [hcc]
      exact heq
    · intro q hq
      have h1 := hkeepD q fun c2 hc2 => hq c2 (List.mem_cons_of_mem c hc2)
      rw [h1, ht1]
      show List.lookup q (((branch.id, c.name), t.nextId) :: t.dictCollections) = _
      rw [List.lookup_cons]
      have : (q == (branch.id, c.name)) = false :=
        beq_eq_false_iff_ne.mpr (hq c hcmem)
      simp only [this]
    · intro sk hsk
      have h1 := hkeepS sk fun hdb => Nat.lt_succ_of_lt (hsk hdb)
      rw [h1, ht1]
      show List.lookup sk ((⟨t.nsId, branch.id, t.nextId, baseSchemaVersion⟩, c.schema)
        :: t.schemas) = _
      rw [List.lookup_cons]
      have hskne : sk ≠ ⟨t.nsId, branch.id, t.nextId, baseSchemaVersion⟩ := by
        intro hcontra
        have hdb : sk.db = branch.id := by rw [hcontra]
        have hcoll : sk.coll = t.nextId := by rw [hcontra]
        have := hsk hdb
        rw [hcoll] at this
        exact absurd this (lt_irrefl _)
      have : (sk == (⟨t.nsId, branch.id, t.nextId, baseSchemaVersion⟩ : SchemaKey)) = false :=
        beq_eq_false_iff_ne.mpr hskne
      simp only [this]
    · intro c2 hc2
      rcases List.mem_cons.mp hc2 with rfl | hc2
      · refine ⟨t.nextId, Nat.le_refl _, Nat.lt_of_lt_of_le (Nat.lt_succ_self _) hle, ?_, ?_⟩
        · have h1 := hkeepD (branch.id, c2.name) fun c3 hc3 => by
            intro hcontra
            have : c2.name = c3.name := by
              have := congrArg Prod.snd hcontra
              simpa using this
            exact hnotin (this ▸ List.mem_map_of_mem Collection.name hc3)
          rw [h1, ht1]
          show List.lookup (branch.id, c2.name)
            (((branch.id, c2.name), t.nextId) :: t.dictCollections) = _
          rw [List.lookup_cons]
          simp
        · have h1 := hkeepS ⟨t.nsId, branch.id, t.nextId, baseSchemaVersion⟩ fun _ =>
            Nat.lt_succ_self _
          rw [h1, ht1]
          show List.lookup (⟨t.nsId, branch.id, t.nextId, baseSchemaVersion⟩ : SchemaKey)
            ((⟨t.nsId, branch.id, t.nextId, baseSchemaVersion⟩, c2.schema) :: t.schemas) = _
          rw [List.lookup_cons]
          simp
      · obtain ⟨cid, hcid1, hcid2, hcid3, hcid4⟩ := hcols c2 hc2
        exact ⟨cid, Nat.le_trans (Nat.le_succ _) hcid1, hcid2, hcid3, hcid4⟩

/-- C9: `CreateBranch` on an existing project and a fresh branch name
allocates a newly created database id for the branch — an id no existing
database record carries — and creates one collection per collection of the
project's main database, each persisted from that collection's stored
schema at the base schema version; no row data is copied. -/
theorem create_branch_clones_schemas (t : Tenant)
    (rules : Collection → SchemaFactory → Bool) (projName : String)
    (dbName : DatabaseName) (proj : Project)
    (hproj : t.projects.lookup projName = some proj)
    (hnew : proj.databaseBranches.lookup dbName.Name = none)
    (hdictdb : t.dictDatabases.lookup dbName.Name = none)
    (hdbids : ∀ p ∈ t.dictDatabases, p.2 < t.nextId)
    (hdict : ∀ p ∈ t.dictCollections, p.1.1 < t.nextId)
    (hschema : ∀ p ∈ t.schemas, p.1.db < t.nextId)
    (hnames : (proj.database.ListCollection.map Collection.name).Nodup)
    (hne : ∀ c ∈ proj.database.ListCollection, c.schema ≠ "") :
    ∃ t2, t.CreateBranch rules projName dbName = .ok t2 ∧
      t2.dictDatabases.lookup dbName.Name = some t.nextId ∧
      (∀ p ∈ t.dictDatabases, p.2 ≠ t.nextId) ∧
      (∀ c ∈ proj.database.ListCollection, ∃ cid,
        t2.dictCollections.lookup (t.nextId, c.name) = some cid ∧
        t2.schemas.lookup ⟨t.nsId, t.nextId, cid, baseSchemaVersion⟩ = some c.schema) ∧
      t2.rowData = t.rowData := by
  set t1 : Tenant :=
    { t with nextId := t.nextId + 1,
             dictDatabases := (dbName.Name, t.nextId) :: t.dictDatabases } with ht1
  obtain ⟨t2, branch2, heq, hns, hrow, hdictdb2, hproj2, hle, hkeepD, hkeepS, hcols⟩ :=
    createBranchCollections_ok rules t.nextId proj.database.ListCollection t1
      ⟨t.nextId, dbName.Name, []⟩ rfl (Nat.lt_succ_self _)
      hnames (fun _ _ => rfl)
      (fun p hp hpB _ _ => absurd hpB (Nat.ne_of_lt (hdict p hp)))
      (fun p hp hpB => absurd hpB (Nat.ne_of_lt (hschema p hp)))
      hne
  rw [ht1] at heq
  refine ⟨t2, ?_, ?_, fun p hp => Nat.ne_of_lt (hdbids p hp), ?_, hrow⟩
  · unfold Tenant.CreateBranch
    rw [hproj]
    simp only [hnew, hdictdb, Option.isSome_none, Bool.false_eq_true, if_false]
    rw [heq]
  · rw [hdictdb2]
    show List.lookup dbName.Name ((dbName.Name, t.nextId) :: t.dictDatabases) = _
    rw [List.lookup_cons]
    simp
  · intro c hc
    obtain ⟨cid, _, _, h3, h4⟩ := hcols c hc
    exact ⟨cid, h3, h4⟩

/-- Witness for C9 at a concrete tenant: branching project `p1` (one
collection `c1` with schema `s1`) into `dev` allocates database id 10,
creates `c1` in the branch with schema `s1` persisted at version 1, and
leaves the row data untouched. -/
theorem create_branch_clones_schemas_witness :
    ∃ t2, Tenant.CreateBranch
        ⟨1, [("p1", ⟨"p1", ⟨1, "p1", [("c1", ⟨2, "c1", "s1", 1⟩)]⟩, []⟩)], 10,
          [("p1", 1)], [((1, "c1"), 2)], [(⟨1, 1, 2, 1⟩, "s1")], [(1, 5, 6)]⟩
        (fun _ _ => true) "p1" ⟨"p1", "dev"⟩ = .ok t2 ∧
      t2.dictDatabases.lookup (DatabaseName.Name ⟨"p1", "dev"⟩) = some 10 ∧
      (∀ p ∈ ([("p1", 1)] : List (String × Nat)), p.2 ≠ 10) ∧
      (∀ c ∈ (Database.mk 1 "p1" [("c1", ⟨2, "c1", "s1", 1⟩)]).ListCollection, ∃ cid,
        t2.dictCollections.lookup (10, c.name) = some cid ∧
        t2.schemas.lookup ⟨1, 10, cid, baseSchemaVersion⟩ = some c.schema) ∧
      t2.rowData = [(1, 5, 6)] :=
  create_branch_clones_schemas
    ⟨1, [("p1", ⟨"p1", ⟨1, "p1", [("c1", ⟨2, "c1", "s1", 1⟩)]⟩, []⟩)], 10,
      [("p1", 1)], [((1, "c1"), 2)], [(⟨1, 1, 2, 1⟩, "s1")], [(1, 5, 6)]⟩
    (fun _ _ => true) "p1" ⟨"p1", "dev"⟩
    ⟨"p1", ⟨1, "p1", [("c1", ⟨2, "c1", "s1", 1⟩)]⟩, []⟩
    rfl rfl (by decide) (by decide) (by decide) (by decide) (by decide) (by decide)

end Tigris
